import Mathlib

/-!
Shallow embedding of pyaptly (src/pyaptly/__init__.py): the Command
entity, the dependency scheduler Command.order_commands, and the
SystemStateReader oracle, together with theorems checking the
specification's claims about them.

Python commands are heap objects identified by id(); we model the
identity as a natural number (CmdId) and keep the object data in a
heap function CmdId -> Command.  Python sets become Finset, Python
exceptions become Except, and the external world (subprocess calls,
gpg output) becomes explicit function parameters / input strings.
-/

/-- A capability tag: the (kind, identifier) pairs stored in the
Python sets Command._requires and Command._provides. -/
abbrev Tag := String × String

/-- Python object identity (id(cmd)) for commands. -/
abbrev CmdId := Nat

/-- The Command object: argument vector `cmd`, the `_requires` and
`_provides` tag sets, and the memoized `_finished` result
(None until executed, modelled as `Option Int`). -/
structure Command where
  cmd : List String
  requires : Finset Tag
  provides : Finset Tag
  finished : Option Int := none
deriving DecidableEq

/-- The four kinds accepted by Command.require. -/
def requiredKinds : List String := ["snapshot", "mirror", "repo", "any"]

/-- The four kinds accepted by Command.provide. -/
def providedKinds : List String := ["snapshot", "mirror", "repo", "publish"]

/-- Command.require: `assert type_ in (snapshot, mirror, repo, any)` then
`self._requires.add((type_, identifier))`.  The error is the
AssertionError; on it the command object is unchanged (no new command
value is produced). -/
def Command.require (c : Command) (type_ : String) (identifier : String) :
    Except String Command :=
  if type_ ∈ requiredKinds then
    .ok { c with requires := insert (type_, identifier) c.requires }
  else
    .error "AssertionError"

/-- Command.provide: `assert type_ in (snapshot, mirror, repo, publish)` then
`self._provides.add((type_, identifier))`. -/
def Command.provide (c : Command) (type_ : String) (identifier : String) :
    Except String Command :=
  if type_ ∈ providedKinds then
    .ok { c with provides := insert (type_, identifier) c.provides }
  else
    .error "AssertionError"

/-- Command.execute.  `world` gives the return code of the external
process invocation (subprocess.check_call); a non-zero code raises
CalledProcessError carrying the code and the argv.  On success
check_call returns 0 and the command memoizes it in `_finished`.
The `Nat` in the result counts the external invocations performed by
this call (0 when the memoized result is returned). -/
def Command.execute (world : List String → Int) (c : Command) :
    Except (Int × List String) (Int × Command × Nat) :=
  match c.finished with
  | some r => .ok (r, c, 0)
  | none =>
      if world c.cmd = 0 then
        .ok (0, { c with finished := some 0 }, 1)
      else
        .error (world c.cmd, c.cmd)

/-- The mutable state of the fixed-point loop in order_commands:
the `scheduled_cmdids` list, the `have_requirements` tag set and the
`something_changed` flag. -/
structure ScanState where
  scheduled : List CmdId
  have_requirements : Finset Tag
  changed : Bool
deriving DecidableEq

/-- The per-command eligibility test in the scan loop: every tag in
`cmd._requires` is in `have_requirements` or answered true by the
oracle callback. -/
def can_schedule (heap : CmdId → Command) (oracle : Tag → Bool)
    (hav : Finset Tag) (cmdid : CmdId) : Prop :=
  ∀ req ∈ (heap cmdid).requires, req ∈ hav ∨ oracle req = true

instance can_schedule.dec (heap : CmdId → Command) (oracle : Tag → Bool)
    (hav : Finset Tag) (cmdid : CmdId) :
    Decidable (can_schedule heap oracle hav cmdid) := by
  unfold can_schedule; infer_instance

/-- The body of `for cmd in commands` inside one scan: skip commands
already scheduled, otherwise schedule the command when eligible,
immediately merging its provides into have_requirements and setting
something_changed. -/
def scan_step (heap : CmdId → Command) (oracle : Tag → Bool)
    (st : ScanState) (cmdid : CmdId) : ScanState :=
  if cmdid ∈ st.scheduled then st
  else if can_schedule heap oracle st.have_requirements cmdid then
    { scheduled := st.scheduled ++ [cmdid],
      have_requirements := st.have_requirements ∪ (heap cmdid).provides,
      changed := true }
  else st

/-- One full scan over the command list (one iteration of the while
loop's `for cmd in commands`). -/
def scan (heap : CmdId → Command) (oracle : Tag → Bool)
    (commands : List CmdId) (st : ScanState) : ScanState :=
  commands.foldl (scan_step heap oracle) st

/-- The `while something_changed` loop: reset the flag, scan, repeat
while the scan scheduled something.  The Python loop is unbounded but
reaches its fixed point in at most `commands.length + 1` scans (each
scan that continues the loop has scheduled at least one new command);
`order_commands` passes exactly that much fuel, and
`order_loop_fix` below proves the fixed point is reached. -/
def order_loop (heap : CmdId → Command) (oracle : Tag → Bool)
    (commands : List CmdId) : Nat → ScanState → ScanState
  | 0, st => st
  | fuel + 1, st =>
      let st2 := scan heap oracle commands { st with changed := false }
      if st2.changed then order_loop heap oracle commands fuel st2 else st2

/-- The two failure modes of order_commands: the `raise ValueError`
branch listing commands with unresolved deps, and the final
`assert incoming_set == scheduled_set`. -/
inductive OrderError where
  | resolutionError (unresolved : List CmdId)
  | assertionError
deriving DecidableEq

/-- Command.order_commands.  The input list may hold non-Command
entries (e.g. the None returned by cmd_snapshot_create for an existing
snapshot), modelled as `none`; the first line filters them out.  The
`unresolved` computation is modelled exactly as written in the source:
it iterates over `scheduled_cmdids` and keeps the ids not in
`scheduled_cmdids`. -/
def order_commands (heap : CmdId → Command) (input : List (Option CmdId))
    (oracle : Tag → Bool) : Except OrderError (List CmdId) :=
  let commands := input.filterMap id
  let final := order_loop heap oracle commands (commands.length + 1)
    { scheduled := [], have_requirements := ∅, changed := true }
  let unresolved := final.scheduled.filter (fun cmdid => cmdid ∉ final.scheduled)
  if unresolved.length > 0 then
    .error (.resolutionError unresolved)
  else if final.scheduled.toFinset = commands.toFinset then
    .ok final.scheduled
  else
    .error .assertionError

/-- The SystemStateReader oracle state: the three known-state sets. -/
structure SystemStateReader where
  gpg_keys : Finset String
  mirrors : Finset String
  snapshots : Finset String

/-- SystemStateReader.has_dependency: membership lookup for the kinds
mirror / snapshot / gpg_key, ValueError for every other kind. -/
def SystemStateReader.has_dependency (s : SystemStateReader)
    (dependency : Tag) : Except String Bool :=
  match dependency with
  | (type_, name) =>
      if type_ = "mirror" then .ok (decide (name ∈ s.mirrors))
      else if type_ = "snapshot" then .ok (decide (name ∈ s.snapshots))
      else if type_ = "gpg_key" then .ok (decide (name ∈ s.gpg_keys))
      else .error "Unknown dependency to resolve"

/-- Python str.split(sep) for a one-character separator, on the
character list of the string (both separators used by read_gpg,
":" and "\n", are single characters). -/
def py_split_chars (sep : Char) : List Char → List String
  | [] => [""]
  | c :: rest =>
      match py_split_chars sep rest with
      | [] => if c = sep then ["", ""] else [String.mk [c]]
      | h :: t =>
          if c = sep then "" :: h :: t
          else String.mk (c :: h.data) :: t

/-- Python str.split(sep) on a String, single-character separator. -/
def py_split (sep : Char) (s : String) : List String :=
  py_split_chars sep s.data

/-- Python s[n:] — the string minus its first n characters. -/
def py_drop (s : String) (n : Nat) : String :=
  String.mk (s.data.drop n)

/-- The line loop of SystemStateReader.read_gpg: for each line whose
first colon-field is "pub", take colon-field 4 as the key and add both
`key` and `key[8:]` (the key minus its first 8 characters) to the set.
Accessing field 4 of a shorter line raises IndexError. -/
def read_gpg_lines : List String → Finset String → Except String (Finset String)
  | [], keys => .ok keys
  | line :: rest, keys =>
      let field := py_split ':' line
      if field.head? = some "pub" then
        match field.get? 4 with
        | some key => read_gpg_lines rest (insert (py_drop key 8) (insert key keys))
        | none => .error "IndexError"
      else
        read_gpg_lines rest keys

/-- SystemStateReader.read_gpg on the gpg --with-colons output `data`:
reset gpg_keys to empty, then process each newline-separated line. -/
def read_gpg (data : String) : Except String (Finset String) :=
  read_gpg_lines (py_split '\n' data) ∅

/-- The spec's phrase for the short form: the last 8 characters of the
key (used to compare with what the code computes, `key[8:]`). -/
def short_form_last8 (key : String) : String :=
  String.mk (key.data.drop (key.data.length - 8))

/-- A snapshot entry of the YAML configuration, as consumed by
cmd_snapshot_create: at most one of the keys mirror / repo / filter,
filter holding a source and a query. -/
structure SnapshotConfig where
  mirror : Option String
  repo : Option String
  filter : Option (String × String)

/-- cmd_snapshot_create: returns None (here `none`) when the snapshot
already exists, otherwise builds the Command for the mirror / repo /
filter form of the config; an unrecognised config raises ValueError. -/
def cmd_snapshot_create (snapshots : Finset String) (snapshot_name : String)
    (cfg : SnapshotConfig) : Except String (Option Command) :=
  if snapshot_name ∈ snapshots then .ok none
  else
    match cfg.mirror with
    | some m =>
        .ok (some { cmd := ["aptly", "snapshot", "create", snapshot_name,
                            "from", "mirror", m],
                    requires := ∅,
                    provides := {("snapshot", snapshot_name)} })
    | none =>
        match cfg.repo with
        | some r =>
            .ok (some { cmd := ["aptly", "snapshot", "create", snapshot_name,
                                "from", "repo", r],
                        requires := ∅,
                        provides := {("snapshot", snapshot_name)} })
        | none =>
            match cfg.filter with
            | some (src, query) =>
                .ok (some { cmd := ["aptly", "snapshot", "filter", src,
                                    snapshot_name, query],
                            requires := {("snapshot", src)},
                            provides := {("snapshot", snapshot_name)} })
            | none => .error "Dont know how to handle snapshot config"

/-- The union of the provides sets of a list of commands. -/
def provided_by (heap : CmdId → Command) (l : List CmdId) : Finset Tag :=
  l.foldr (fun c acc => (heap c).provides ∪ acc) ∅

/-- The loop invariant of the fixed-point scan: the scheduled list has
no duplicate ids and draws its ids from the input; have_requirements
only holds tags provided by scheduled commands; and every scheduled
command's requirements were, at scheduling time, answered by the
oracle or provided by a command scheduled strictly earlier. -/
structure SchedInv (heap : CmdId → Command) (oracle : Tag → Bool)
    (commands : List CmdId) (st : ScanState) : Prop where
  nodup : st.scheduled.Nodup
  mem : ∀ c ∈ st.scheduled, c ∈ commands
  sat_sub : st.have_requirements ⊆ provided_by heap st.scheduled
  prec : ∀ i, (hi : i < st.scheduled.length) →
    ∀ req ∈ (heap (st.scheduled.get ⟨i, hi⟩)).requires,
      oracle req = true ∨ req ∈ provided_by heap (st.scheduled.take i)

/-- Concrete fixture: command A of the spec's scenario — provides
(snapshot, s1), requires nothing. -/
def cmdA : Command :=
  { cmd := ["A"], requires := ∅, provides := {("snapshot", "s1")} }

/-- Concrete fixture: command B of the spec's scenario — requires
(snapshot, s1), provides (snapshot, s2). -/
def cmdB : Command :=
  { cmd := ["B"], requires := {("snapshot", "s1")}, provides := {("snapshot", "s2")} }

/-- Heap for the scenario: id 0 is A, every other id is B. -/
def heapAB : CmdId → Command
  | 0 => cmdA
  | _ => cmdB

/-- Heap for the cycle scenario: id 0 requires what id 1 provides and
vice versa, each providing a single tag. -/
def heapCycle : CmdId → Command
  | 0 => { cmd := ["a"], requires := {("snapshot", "b")}, provides := {("snapshot", "a")} }
  | _ => { cmd := ["b"], requires := {("snapshot", "a")}, provides := {("snapshot", "b")} }

/-- Heap for the unsatisfiable-requirement scenario: every id requires
(mirror, m1), which nothing provides. -/
def heapSingle : CmdId → Command
  | _ => { cmd := ["C"], requires := {("mirror", "m1")}, provides := ∅ }

/-- A blank command fixture for the execute / require / provide claims. -/
def blankCmd : Command :=
  { cmd := ["aptly", "mirror", "update", "m"], requires := ∅, provides := ∅ }

/-! ## Lemmas about the scheduler -/

theorem provided_by_nil (heap : CmdId → Command) : provided_by heap [] = ∅ := rfl

theorem provided_by_cons (heap : CmdId → Command) (c : CmdId) (l : List CmdId) :
    provided_by heap (c :: l) = (heap c).provides ∪ provided_by heap l := rfl

theorem mem_provided_by {heap : CmdId → Command} {t : Tag} :
    ∀ {l : List CmdId}, t ∈ provided_by heap l ↔ ∃ c ∈ l, t ∈ (heap c).provides := by
  intro l
  induction l with
  | nil => simp [provided_by_nil]
  | cons c rest ih => simp [provided_by_cons, Finset.mem_union, ih]

theorem scan_step_mem (heap : CmdId → Command) (oracle : Tag → Bool)
    (st : ScanState) (c : CmdId) (h : c ∈ st.scheduled) :
    scan_step heap oracle st c = st := by
  simp [scan_step, h]

theorem scan_step_schedules (heap : CmdId → Command) (oracle : Tag → Bool)
    (st : ScanState) (c : CmdId) (h : c ∉ st.scheduled)
    (hc : can_schedule heap oracle st.have_requirements c) :
    scan_step heap oracle st c =
      { scheduled := st.scheduled ++ [c],
        have_requirements := st.have_requirements ∪ (heap c).provides,
        changed := true } := by
  simp [scan_step, h, hc]

theorem scan_step_skips (heap : CmdId → Command) (oracle : Tag → Bool)
    (st : ScanState) (c : CmdId) (h : c ∉ st.scheduled)
    (hc : ¬ can_schedule heap oracle st.have_requirements c) :
    scan_step heap oracle st c = st := by
  simp [scan_step, h, hc]

theorem schedInv_scan_step {heap : CmdId → Command} {oracle : Tag → Bool}
    {commands : List CmdId} {st : ScanState} {c : CmdId}
    (hin : SchedInv heap oracle commands st) (hc : c ∈ commands) :
    SchedInv heap oracle commands (scan_step heap oracle st c) := by
  by_cases h1 : c ∈ st.scheduled
  · rw [scan_step_mem heap oracle st c h1]; exact hin
  · by_cases h2 : can_schedule heap oracle st.have_requirements c
    · rw [scan_step_schedules heap oracle st c h1 h2]
      refine ⟨?_, ?_, ?_, ?_⟩
      · simpa [List.nodup_append] using ⟨hin.nodup, h1⟩
      · intro x hx
        rcases List.mem_append.mp hx with hx | hx
        · exact hin.mem x hx
        · simp only [List.mem_singleton] at hx
          exact hx ▸ hc
      · intro t ht
        rcases Finset.mem_union.mp ht with ht | ht
        · rcases mem_provided_by.mp (hin.sat_sub ht) with ⟨p, hp, hpt⟩
          exact mem_provided_by.mpr ⟨p, List.mem_append_left _ hp, hpt⟩
        · exact mem_provided_by.mpr ⟨c, List.mem_append_right _ (List.mem_singleton_self c), ht⟩
      · intro i hi req hreq
        simp only [List.length_append, List.length_singleton] at hi
        rcases Nat.lt_succ_iff_lt_or_eq.mp hi with hlt | heq
        · have hget : (st.scheduled ++ [c]).get ⟨i, by simpa using hi⟩ =
              st.scheduled.get ⟨i, hlt⟩ := by
            simp [List.get_eq_getElem, List.getElem_append_left hlt]
          rw [hget] at hreq
          have htake : (st.scheduled ++ [c]).take i = st.scheduled.take i := by
            rw [List.take_append_eq_append_take, Nat.sub_eq_zero_of_le (Nat.le_of_lt hlt)]
            simp
          rw [htake]
          exact hin.prec i hlt req hreq
        · subst heq
          have hget : (st.scheduled ++ [c]).get ⟨st.scheduled.length, by simp⟩ = c := by
            simp [List.get_eq_getElem]
          rw [hget] at hreq
          have htake : (st.scheduled ++ [c]).take st.scheduled.length = st.scheduled := by
            simp [List.take_append_eq_append_take]
          rw [htake]
          rcases h2 req hreq with hmem | horc
          · exact Or.inr (hin.sat_sub hmem)
          · exact Or.inl horc
    · rw [scan_step_skips heap oracle st c h1 h2]; exact hin

theorem schedInv_foldl {heap : CmdId → Command} {oracle : Tag → Bool}
    {commands : List CmdId} :
    ∀ (l : List CmdId) (st : ScanState), (∀ c ∈ l, c ∈ commands) →
      SchedInv heap oracle commands st →
      SchedInv heap oracle commands (l.foldl (scan_step heap oracle) st) := by
  intro l
  induction l with
  | nil => intro st _ h; exact h
  | cons c rest ih =>
      intro st hl h
      exact ih (scan_step heap oracle st c)
        (fun x hx => hl x (List.mem_cons_of_mem c hx))
        (schedInv_scan_step h (hl c (List.mem_cons_self c rest)))

theorem schedInv_scan {heap : CmdId → Command} {oracle : Tag → Bool}
    {commands : List CmdId} {st : ScanState}
    (h : SchedInv heap oracle commands st) :
    SchedInv heap oracle commands (scan heap oracle commands st) :=
  schedInv_foldl commands st (fun _ hx => hx) h

theorem schedInv_set_changed {heap : CmdId → Command} {oracle : Tag → Bool}
    {commands : List CmdId} {st : ScanState} {b : Bool}
    (h : SchedInv heap oracle commands st) :
    SchedInv heap oracle commands { st with changed := b } :=
  ⟨h.nodup, h.mem, h.sat_sub, h.prec⟩

theorem schedInv_order_loop {heap : CmdId → Command} {oracle : Tag → Bool}
    {commands : List CmdId} :
    ∀ (fuel : Nat) (st : ScanState), SchedInv heap oracle commands st →
      SchedInv heap oracle commands (order_loop heap oracle commands fuel st) := by
  intro fuel
  induction fuel with
  | zero => intro st h; exact h
  | succ n ih =>
      intro st h
      unfold order_loop
      simp only
      split
      · exact ih _ (schedInv_scan (schedInv_set_changed h))
      · exact schedInv_scan (schedInv_set_changed h)

theorem schedInv_init {heap : CmdId → Command} {oracle : Tag → Bool}
    {commands : List CmdId} :
    SchedInv heap oracle commands ⟨[], ∅, true⟩ := by
  refine ⟨List.nodup_nil, ?_, ?_, ?_⟩
  · intro c hc; exact absurd hc (List.not_mem_nil c)
  · intro t ht; exact absurd ht (Finset.not_mem_empty t)
  · intro i hi; exact absurd hi (Nat.not_lt_zero i)

theorem order_commands_ok_elim {heap : CmdId → Command} {input : List (Option CmdId)}
    {oracle : Tag → Bool} {planned : List CmdId}
    (h : order_commands heap input oracle = .ok planned) :
    planned = (order_loop heap oracle (input.filterMap id)
        ((input.filterMap id).length + 1) ⟨[], ∅, true⟩).scheduled ∧
      planned.toFinset = (input.filterMap id).toFinset := by
  unfold order_commands at h
  simp only at h
  split at h
  · exact absurd h (by simp)
  · split at h
    · rename_i hset
      have := Except.ok.inj h
      subst this
      exact ⟨rfl, hset⟩
    · exact absurd h (by simp)

theorem scan_step_changed_false {heap : CmdId → Command} {oracle : Tag → Bool}
    {st : ScanState} {c : CmdId}
    (h : (scan_step heap oracle st c).changed = false) :
    scan_step heap oracle st c = st ∧ st.changed = false := by
  by_cases h1 : c ∈ st.scheduled
  · rw [scan_step_mem heap oracle st c h1] at h ⊢; exact ⟨rfl, h⟩
  · by_cases h2 : can_schedule heap oracle st.have_requirements c
    · rw [scan_step_schedules heap oracle st c h1 h2] at h
      simp at h
    · rw [scan_step_skips heap oracle st c h1 h2] at h ⊢; exact ⟨rfl, h⟩

theorem foldl_scan_changed_false {heap : CmdId → Command} {oracle : Tag → Bool} :
    ∀ (l : List CmdId) (st : ScanState),
      (l.foldl (scan_step heap oracle) st).changed = false →
      l.foldl (scan_step heap oracle) st = st ∧ st.changed = false := by
  intro l
  induction l with
  | nil => intro st h; exact ⟨rfl, h⟩
  | cons c rest ih =>
      intro st h
      simp only [List.foldl_cons] at h ⊢
      rcases ih (scan_step heap oracle st c) h with ⟨hfold, hstep⟩
      rcases scan_step_changed_false hstep with ⟨heq, hch⟩
      rw [hfold, heq]
      exact ⟨rfl, hch⟩

theorem scan_step_sched_le (heap : CmdId → Command) (oracle : Tag → Bool)
    (st : ScanState) (c : CmdId) :
    st.scheduled.length ≤ (scan_step heap oracle st c).scheduled.length := by
  by_cases h1 : c ∈ st.scheduled
  · rw [scan_step_mem heap oracle st c h1]
  · by_cases h2 : can_schedule heap oracle st.have_requirements c
    · rw [scan_step_schedules heap oracle st c h1 h2]
      simp
    · rw [scan_step_skips heap oracle st c h1 h2]

theorem foldl_sched_le (heap : CmdId → Command) (oracle : Tag → Bool) :
    ∀ (l : List CmdId) (st : ScanState),
      st.scheduled.length ≤ (l.foldl (scan_step heap oracle) st).scheduled.length := by
  intro l
  induction l with
  | nil => intro st; exact Nat.le_refl _
  | cons c rest ih =>
      intro st
      simp only [List.foldl_cons]
      exact Nat.le_trans (scan_step_sched_le heap oracle st c) (ih _)

theorem foldl_scan_changed_true_lt {heap : CmdId → Command} {oracle : Tag → Bool} :
    ∀ (l : List CmdId) (st : ScanState), st.changed = false →
      (l.foldl (scan_step heap oracle) st).changed = true →
      st.scheduled.length < (l.foldl (scan_step heap oracle) st).scheduled.length := by
  intro l
  induction l with
  | nil =>
      intro st h1 h2
      simp only [List.foldl_nil] at h2
      rw [h1] at h2
      exact absurd h2 (by simp)
  | cons c rest ih =>
      intro st h1 h2
      simp only [List.foldl_cons] at h2 ⊢
      by_cases hm : c ∈ st.scheduled
      · rw [scan_step_mem heap oracle st c hm] at h2 ⊢
        exact ih st h1 h2
      · by_cases hs : can_schedule heap oracle st.have_requirements c
        · rw [scan_step_schedules heap oracle st c hm hs]
          refine Nat.lt_of_lt_of_le ?_ (foldl_sched_le heap oracle rest _)
          simp
        · rw [scan_step_skips heap oracle st c hm hs] at h2 ⊢
          exact ih st h1 h2

theorem sched_length_le {heap : CmdId → Command} {oracle : Tag → Bool}
    {commands : List CmdId} {st : ScanState}
    (hinv : SchedInv heap oracle commands st) :
    st.scheduled.length ≤ commands.length := by
  have h1 : st.scheduled.toFinset.card = st.scheduled.length :=
    List.toFinset_card_of_nodup hinv.nodup
  have h2 : st.scheduled.toFinset ⊆ commands.toFinset := by
    intro x hx
    exact List.mem_toFinset.mpr (hinv.mem x (List.mem_toFinset.mp hx))
  calc st.scheduled.length = st.scheduled.toFinset.card := h1.symm
    _ ≤ commands.toFinset.card := Finset.card_le_card h2
    _ ≤ commands.length := commands.toFinset_card_le

/-- The fixed-point loop with fuel `commands.length + 1 - scheduled`
reaches a genuine fixed point: one more scan of the returned state
schedules nothing.  This is what makes the fuelled model equivalent to
the source's unbounded `while something_changed` loop. -/
theorem order_loop_fix {heap : CmdId → Command} {oracle : Tag → Bool}
    {commands : List CmdId} :
    ∀ (fuel : Nat) (st : ScanState), SchedInv heap oracle commands st →
      commands.length + 1 ≤ fuel + st.scheduled.length →
      scan heap oracle commands
          { order_loop heap oracle commands fuel st with changed := false } =
        { order_loop heap oracle commands fuel st with changed := false } := by
  intro fuel
  induction fuel with
  | zero =>
      intro st hinv hfuel
      have := sched_length_le hinv
      omega
  | succ n ih =>
      intro st hinv hfuel
      unfold order_loop
      simp only
      split
      · rename_i hch
        have hlt : st.scheduled.length <
            (scan heap oracle commands { st with changed := false }).scheduled.length :=
          foldl_scan_changed_true_lt commands { st with changed := false } rfl hch
        exact ih _ (schedInv_scan (schedInv_set_changed hinv)) (by omega)
      · rename_i hch
        have hch2 : (scan heap oracle commands { st with changed := false }).changed = false := by
          revert hch
          cases (scan heap oracle commands { st with changed := false }).changed <;> simp
        have heqs : scan heap oracle commands { st with changed := false } =
            { st with changed := false } :=
          (foldl_scan_changed_false commands { st with changed := false } hch2).1
        simp only [heqs]

theorem read_gpg_lines_mono : ∀ (lines : List String) (keys0 keys : Finset String),
    read_gpg_lines lines keys0 = .ok keys → keys0 ⊆ keys := by
  intro lines
  induction lines with
  | nil =>
      intro k0 k h
      simp only [read_gpg_lines, Except.ok.injEq] at h
      exact h ▸ Finset.Subset.refl k0
  | cons line rest ih =>
      intro k0 k h
      simp only [read_gpg_lines] at h
      split at h
      · split at h
        · exact fun x hx =>
            ih _ _ h (Finset.mem_insert_of_mem (Finset.mem_insert_of_mem hx))
        · exact absurd h (by simp)
      · exact ih _ _ h

theorem read_gpg_lines_registers : ∀ (lines : List String) (keys0 keys : Finset String)
    (line key : String),
    read_gpg_lines lines keys0 = .ok keys → line ∈ lines →
    (py_split ':' line).head? = some "pub" →
    (py_split ':' line).get? 4 = some key →
    key ∈ keys ∧ py_drop key 8 ∈ keys := by
  intro lines
  induction lines with
  | nil =>
      intro _ _ _ _ _ hmem
      exact absurd hmem (List.not_mem_nil _)
  | cons l rest ih =>
      intro k0 k line key h hmem hpub hkey
      simp only [read_gpg_lines] at h
      rcases List.mem_cons.mp hmem with heq | hmem2
      · subst heq
        split at h
        · split at h
          · rename_i key2 hkey2
            rw [hkey] at hkey2
            have hk : key = key2 := Option.some.inj hkey2
            subst hk
            have hsub := read_gpg_lines_mono rest _ _ h
            exact ⟨hsub (Finset.mem_insert_of_mem (Finset.mem_insert_self key k0)),
                   hsub (Finset.mem_insert_self _ _)⟩
          · exact absurd h (by simp)
        · rename_i hnpub
          exact absurd hpub hnpub
      · split at h
        · split at h
          · exact ih _ _ _ _ h hmem2 hpub hkey
          · exact absurd h (by simp)
        · exact ih _ _ _ _ h hmem2 hpub hkey

theorem order_commands_core {heap : CmdId → Command} {input : List (Option CmdId)}
    {oracle : Tag → Bool} {planned : List CmdId}
    (h : order_commands heap input oracle = .ok planned) :
    planned.Nodup ∧ (∀ c ∈ planned, c ∈ input.filterMap id) ∧
      planned.toFinset = (input.filterMap id).toFinset ∧
      ∀ i, (hi : i < planned.length) →
        ∀ req ∈ (heap (planned.get ⟨i, hi⟩)).requires,
          oracle req = true ∨ req ∈ provided_by heap (planned.take i) := by
  rcases order_commands_ok_elim h with ⟨hsched, hset⟩
  have hinv := @schedInv_order_loop heap oracle (input.filterMap id)
    ((input.filterMap id).length + 1) ⟨[], ∅, true⟩
    (@schedInv_init heap oracle (input.filterMap id))
  subst hsched
  exact ⟨hinv.nodup, hinv.mem, hset, hinv.prec⟩

/-! ## Claim theorems -/

/-- C1: a deadlocked input (two commands in a requires-cycle with the
oracle answering false, or one command with an unprovided requirement
the oracle denies) terminates the fixed-point loop with both commands
unscheduled, but order_commands raises the bare AssertionError of the
final set comparison, not the diagnostic error enumerating the
unscheduled commands: the source's `unresolved` list filters
scheduled_cmdids against itself and is always empty, so the
enumerating ValueError branch is unreachable. -/
theorem order_commands_deadlock_bare_assert :
    order_commands heapCycle [some 0, some 1] (fun _ => false) =
        .error .assertionError
    ∧ (order_loop heapCycle (fun _ => false) [0, 1] 3 ⟨[], ∅, true⟩).scheduled = []
    ∧ order_commands heapSingle [some 0] (fun _ => false) =
        .error .assertionError :=
  ⟨by rfl, by rfl, by rfl⟩

/-- C2 counterexample: the same Command instance listed twice is
scheduled only once (the final set-based assert still passes), so the
output [0] is not a permutation of the input [0, 0]. -/
theorem order_commands_duplicate_counterexample :
    order_commands heapAB ([0, 0].map some) (fun _ => false) = .ok [0]
    ∧ ¬ ([0] : List CmdId).Perm [0, 0] :=
  ⟨by rfl, by decide⟩

/-- C2 (amended): for every input list of pairwise-distinct Command
instances on which order_commands succeeds, the returned list is a
permutation of the input — no drops, no duplicates. -/
theorem order_commands_perm_of_nodup (heap : CmdId → Command)
    (commands : List CmdId) (oracle : Tag → Bool) (planned : List CmdId)
    (hnd : commands.Nodup)
    (h : order_commands heap (commands.map some) oracle = .ok planned) :
    planned.Perm commands := by
  rcases order_commands_core h with ⟨hnodup, _, hset, _⟩
  rw [show (commands.map some).filterMap id = commands by simp] at hset
  exact List.perm_of_nodup_nodup_toFinset_eq hnodup hnd hset

/-- C2 witness: a concrete duplicate-free run where the theorem yields
the permutation. -/
theorem order_commands_perm_of_nodup_witness :
    ([0, 1] : List CmdId).Nodup
    ∧ order_commands heapAB ([0, 1].map some) (fun _ => false) = .ok [0, 1]
    ∧ ([0, 1] : List CmdId).Perm [0, 1] :=
  ⟨by decide, by rfl,
    order_commands_perm_of_nodup heapAB [0, 1] (fun _ => false) [0, 1]
      (by decide) (by rfl)⟩

/-- C3: the satisfied set is updated as soon as a command is scheduled:
in the spec scenario (A provides (snapshot,s1); B requires it and
provides (snapshot,s2); oracle always false) order_commands([B, A])
returns [A, B], and a single scan over [A, B] already schedules both
commands in the same pass. -/
theorem order_commands_same_pass_chain :
    order_commands heapAB [some 1, some 0] (fun _ => false) = .ok [0, 1]
    ∧ (scan heapAB (fun _ => false) [0, 1] ⟨[], ∅, false⟩).scheduled = [0, 1] :=
  ⟨by rfl, by rfl⟩

/-- C10: order_commands removes non-Command entries (the `none`
placeholders) before any scheduling: a leading `none` never changes
the result, and the whole computation depends only on the
Command-typed entries of the input. -/
theorem order_commands_filters_non_commands :
    ∀ (heap : CmdId → Command) (input : List (Option CmdId)) (oracle : Tag → Bool),
      order_commands heap (none :: input) oracle = order_commands heap input oracle
      ∧ order_commands heap input oracle =
          order_commands heap ((input.filterMap id).map some) oracle := by
  have key : ∀ (heap : CmdId → Command) (oracle : Tag → Bool)
      (i1 i2 : List (Option CmdId)), i1.filterMap id = i2.filterMap id →
      order_commands heap i1 oracle = order_commands heap i2 oracle := by
    intro heap oracle i1 i2 h
    unfold order_commands
    rw [h]
  intro heap input oracle
  constructor
  · exact key heap oracle _ _ (by simp)
  · exact key heap oracle _ _ (by simp)

/-- C4: in every successful output, a requirement tag the oracle does
not answer true is provided by some command placed strictly earlier in
the returned order. -/
theorem order_commands_precedence (heap : CmdId → Command)
    (input : List (Option CmdId)) (oracle : Tag → Bool) (planned : List CmdId)
    (h : order_commands heap input oracle = .ok planned) :
    ∀ i, (hi : i < planned.length) →
      ∀ req ∈ (heap (planned.get ⟨i, hi⟩)).requires, oracle req = false →
        ∃ j, ∃ (hj : j < planned.length), j < i ∧
          req ∈ (heap (planned.get ⟨j, hj⟩)).provides := by
  rcases order_commands_core h with ⟨_, _, _, hprec⟩
  intro i hi req hreq horacle
  rcases hprec i hi req hreq with htrue | hprov
  · rw [horacle] at htrue
    exact absurd htrue (by simp)
  · rcases mem_provided_by.mp hprov with ⟨p, hpmem, hppr⟩
    rcases List.mem_iff_get.mp hpmem with ⟨n, hn⟩
    have hlen : (planned.take i).length = min i planned.length :=
      planned.length_take i
    have hni : (n : Nat) < i := by
      have h2 := n.isLt
      omega
    have hnp : (n : Nat) < planned.length := by
      have h2 := n.isLt
      omega
    refine ⟨n, hnp, hni, ?_⟩
    have hget : (planned.take i).get n = planned.get ⟨n, hnp⟩ := by
      simp [List.get_eq_getElem, List.getElem_take]
    rw [← hget, hn]
    exact hppr

/-- C4 witness: in the concrete scenario order([B, A]) = [A, B], B's
requirement (snapshot, s1), denied by the oracle, is provided by A at
the strictly earlier position 0. -/
theorem order_commands_precedence_witness :
    ∃ j, ∃ (hj : j < ([0, 1] : List CmdId).length), j < 1 ∧
      ("snapshot", "s1") ∈ (heapAB (([0, 1] : List CmdId).get ⟨j, hj⟩)).provides :=
  order_commands_precedence heapAB [some 1, some 0] (fun _ => false) [0, 1]
    (by rfl) 1 (by decide) ("snapshot", "s1") (by decide) (by rfl)

/-- C5: a requirement of kind "any" can never be satisfied by another
command's provides (no provide kind is "any", as guaranteed for every
command whose provides went through Command.provide), so a scheduled
command with an ("any", x) requirement must have had the oracle answer
it true; the oracle answers concrete-kind snapshot queries with a
boolean but rejects a literal "any" kind with ValueError; and the
commands this program builds (cmd_snapshot_create) only carry concrete
"snapshot"-kind requirements. -/
theorem any_kind_resolved_by_oracle_only (heap : CmdId → Command)
    (input : List (Option CmdId)) (oracle : Tag → Bool) (planned : List CmdId)
    (hp : ∀ cid : CmdId, some cid ∈ input → ∀ p ∈ (heap cid).provides, p.1 ≠ "any")
    (h : order_commands heap input oracle = .ok planned) :
    (∀ cid ∈ planned, ∀ x, ("any", x) ∈ (heap cid).requires →
        oracle ("any", x) = true)
    ∧ (∀ (s : SystemStateReader) (n : String),
        s.has_dependency ("snapshot", n) = .ok (decide (n ∈ s.snapshots)))
    ∧ (∀ (s : SystemStateReader) (x : String),
        s.has_dependency ("any", x) = .error "Unknown dependency to resolve")
    ∧ (∀ (snaps : Finset String) (snapshot_name : String) (cfg : SnapshotConfig)
        (c : Command), cmd_snapshot_create snaps snapshot_name cfg = .ok (some c) →
        ∀ r ∈ c.requires, r.1 = "snapshot") := by
  rcases order_commands_core h with ⟨_, hmem, _, hprec⟩
  refine ⟨?_, ?_, ?_, ?_⟩
  · intro cid hcid x hreq
    rcases List.mem_iff_get.mp hcid with ⟨i, hi⟩
    rcases hprec i i.isLt ("any", x) (by rw [hi]; exact hreq) with htrue | hprov
    · exact htrue
    · exfalso
      rcases mem_provided_by.mp hprov with ⟨p, hpmem, hppr⟩
      have hpp : p ∈ planned := List.take_subset _ _ hpmem
      have hpi : some p ∈ input := by
        rcases List.mem_filterMap.mp (hmem p hpp) with ⟨b, hb, hbeq⟩
        simp only [id] at hbeq
        exact hbeq ▸ hb
      exact hp p hpi ("any", x) hppr rfl
  · intro s n; rfl
  · intro s x; rfl
  · intro snaps snapshot_name cfg c hc r hr
    unfold cmd_snapshot_create at hc
    split at hc
    · exact absurd (Except.ok.inj hc) (by simp)
    · split at hc
      · have := Option.some.inj (Except.ok.inj hc)
        rw [← this] at hr
        exact absurd hr (by simp)
      · split at hc
        · have := Option.some.inj (Except.ok.inj hc)
          rw [← this] at hr
          exact absurd hr (by simp)
        · split at hc
          · rename_i src query hsq
            have := Option.some.inj (Except.ok.inj hc)
            rw [← this] at hr
            simp at hr
            rw [hr]
          · exact absurd hc (by simp)

/-- C5 witness: the theorem applied to the concrete scenario, showing
the oracle rejecting a literal "any" query. -/
theorem any_kind_resolved_by_oracle_only_witness :
    SystemStateReader.has_dependency ⟨∅, ∅, ∅⟩ ("any", "x") =
      .error "Unknown dependency to resolve" :=
  (any_kind_resolved_by_oracle_only heapAB [some 0, some 1] (fun _ => false) [0, 1]
    (by
      intro cid hcid p hpmem hany
      simp only [List.mem_cons, List.not_mem_nil, or_false, Option.some.injEq] at hcid
      rcases hcid with h0 | h1
      · subst h0
        have hpe : p = ("snapshot", "s1") := by simpa [heapAB, cmdA] using hpmem
        rw [hpe] at hany
        exact absurd hany (by decide)
      · subst h1
        have hpe : p = ("snapshot", "s2") := by simpa [heapAB, cmdB] using hpmem
        rw [hpe] at hany
        exact absurd hany (by decide))
    (by rfl)).2.2.1 ⟨∅, ∅, ∅⟩ "x"

/-- C6: once execute has completed successfully (stored a result),
every subsequent execute call returns the same memoized result with
zero further external invocations, and the completed call itself made
at most one invocation. -/
theorem execute_memoized (world : List String → Int) (c : Command)
    (r : Int) (c2 : Command) (n : Nat)
    (h : Command.execute world c = .ok (r, c2, n)) :
    Command.execute world c2 = .ok (r, c2, 0) ∧ n ≤ 1 := by
  unfold Command.execute at h
  split at h
  · rename_i r0 hr0
    have := Except.ok.inj h
    simp only [Prod.mk.injEq] at this
    rcases this with ⟨hr, hc, hn⟩
    subst hr; subst hn
    rw [← hc]
    constructor
    · unfold Command.execute
      rw [hr0]
    · exact Nat.zero_le 1
  · rename_i hr0
    split at h
    · have := Except.ok.inj h
      simp only [Prod.mk.injEq] at this
      rcases this with ⟨hr, hc, hn⟩
      subst hr; subst hn
      rw [← hc]
      exact ⟨by unfold Command.execute; rfl, Nat.le_refl 1⟩
    · exact absurd h (by simp)

/-- C6 witness: a concrete command executed twice, invoking the world
once on the first call and zero times on the second. -/
theorem execute_memoized_witness :
    Command.execute (fun _ => 0) blankCmd =
        .ok (0, { blankCmd with finished := some 0 }, 1)
    ∧ Command.execute (fun _ => 0) { blankCmd with finished := some 0 } =
        .ok (0, { blankCmd with finished := some 0 }, 0) :=
  ⟨by rfl,
    (execute_memoized (fun _ => 0) blankCmd 0
      { blankCmd with finished := some 0 } 1 (by rfl)).1⟩

/-- C7: require succeeds exactly for the kinds snapshot / mirror /
repo / any and then only inserts the tag into requires; provide
succeeds exactly for snapshot / mirror / repo / publish and then only
inserts the tag into provides; any other kind yields the
AssertionError and no updated command. -/
theorem require_provide_kind_check : ∀ (c : Command) (t i : String),
    ((∃ c2, Command.require c t i = .ok c2) ↔ t ∈ requiredKinds)
    ∧ (∀ c2, Command.require c t i = .ok c2 →
        c2.requires = insert (t, i) c.requires ∧ c2.provides = c.provides
        ∧ c2.cmd = c.cmd)
    ∧ (t ∉ requiredKinds → Command.require c t i = .error "AssertionError")
    ∧ ((∃ c2, Command.provide c t i = .ok c2) ↔ t ∈ providedKinds)
    ∧ (∀ c2, Command.provide c t i = .ok c2 →
        c2.provides = insert (t, i) c.provides ∧ c2.requires = c.requires
        ∧ c2.cmd = c.cmd)
    ∧ (t ∉ providedKinds → Command.provide c t i = .error "AssertionError") := by
  intro c t i
  refine ⟨⟨?_, ?_⟩, ?_, ?_, ⟨?_, ?_⟩, ?_, ?_⟩
  · rintro ⟨c2, hc2⟩
    by_contra hnt
    simp [Command.require, hnt] at hc2
  · intro ht
    exact ⟨{ c with requires := insert (t, i) c.requires },
      by simp [Command.require, ht]⟩
  · intro c2 hc2
    by_cases ht : t ∈ requiredKinds
    · simp only [Command.require, if_pos ht, Except.ok.injEq] at hc2
      rw [← hc2]
      exact ⟨rfl, rfl, rfl⟩
    · simp [Command.require, ht] at hc2
  · intro ht
    simp [Command.require, ht]
  · rintro ⟨c2, hc2⟩
    by_contra hnt
    simp [Command.provide, hnt] at hc2
  · intro ht
    exact ⟨{ c with provides := insert (t, i) c.provides },
      by simp [Command.provide, ht]⟩
  · intro c2 hc2
    by_cases ht : t ∈ providedKinds
    · simp only [Command.provide, if_pos ht, Except.ok.injEq] at hc2
      rw [← hc2]
      exact ⟨rfl, rfl, rfl⟩
    · simp [Command.provide, ht] at hc2
  · intro ht
    simp [Command.provide, ht]

/-- C7 witness: "any" is acceptable to require but not to provide, and
"publish" is acceptable to provide but not to require. -/
theorem require_provide_kind_check_witness :
    (∃ c2, Command.require blankCmd "any" "x" = .ok c2)
    ∧ Command.require blankCmd "publish" "x" = .error "AssertionError"
    ∧ (∃ c2, Command.provide blankCmd "publish" "x" = .ok c2)
    ∧ Command.provide blankCmd "any" "x" = .error "AssertionError" :=
  ⟨(require_provide_kind_check blankCmd "any" "x").1.mpr (by decide),
   (require_provide_kind_check blankCmd "publish" "x").2.2.1 (by decide),
   (require_provide_kind_check blankCmd "publish" "x").2.2.2.1.mpr (by decide),
   (require_provide_kind_check blankCmd "any" "x").2.2.2.2.2 (by decide)⟩

/-- C8: has_dependency answers a boolean membership query on the
matching known-state set for the kinds mirror / snapshot / gpg_key and
raises ValueError for every other kind; the reader's state is not
touched (the function is pure in the model, as in the source it only
reads self). -/
theorem has_dependency_kind_contract : ∀ (s : SystemStateReader) (t n : String),
    (t = "mirror" → s.has_dependency (t, n) = .ok (decide (n ∈ s.mirrors)))
    ∧ (t = "snapshot" → s.has_dependency (t, n) = .ok (decide (n ∈ s.snapshots)))
    ∧ (t = "gpg_key" → s.has_dependency (t, n) = .ok (decide (n ∈ s.gpg_keys)))
    ∧ (t ≠ "mirror" → t ≠ "snapshot" → t ≠ "gpg_key" →
        s.has_dependency (t, n) = .error "Unknown dependency to resolve") := by
  intro s t n
  refine ⟨?_, ?_, ?_, ?_⟩
  · intro h; subst h; rfl
  · intro h; subst h; rfl
  · intro h; subst h; rfl
  · intro h1 h2 h3
    simp [SystemStateReader.has_dependency, h1, h2, h3]

/-- C8 witness: concrete queries on a reader knowing mirror m1. -/
theorem has_dependency_kind_contract_witness :
    SystemStateReader.has_dependency ⟨∅, {"m1"}, ∅⟩ ("mirror", "m1") = .ok true
    ∧ SystemStateReader.has_dependency ⟨∅, {"m1"}, ∅⟩ ("repo", "m1") =
        .error "Unknown dependency to resolve" :=
  ⟨by
    have h := (has_dependency_kind_contract ⟨∅, {"m1"}, ∅⟩ "mirror" "m1").1 rfl
    simpa using h,
   (has_dependency_kind_contract ⟨∅, {"m1"}, ∅⟩ "repo" "m1").2.2.2
     (by decide) (by decide) (by decide)⟩

/-- C9 counterexample: read_gpg registers the key and the key minus
its FIRST 8 characters (key[8:]), which is the last-8-characters short
form only for 16-character key ids; for the 10-character key
parsed here the last-8 form is not registered, and a gpg_key oracle
query for it answers false. -/
theorem read_gpg_short_form_counterexample :
    read_gpg "pub:a:b:c:ABCDEFGHIJ" = .ok (insert "IJ" (insert "ABCDEFGHIJ" ∅))
    ∧ short_form_last8 "ABCDEFGHIJ" = "CDEFGHIJ"
    ∧ "CDEFGHIJ" ∉ (insert "IJ" (insert "ABCDEFGHIJ" ∅) : Finset String)
    ∧ SystemStateReader.has_dependency
        ⟨insert "IJ" (insert "ABCDEFGHIJ" ∅), ∅, ∅⟩ ("gpg_key", "CDEFGHIJ") =
        .ok false :=
  ⟨by rfl, by rfl, by decide, by rfl⟩

/-- C9 (amended): for every key parsed from a "pub" line of the
keyring listing, read_gpg registers the full key string and the string
minus its first 8 characters; when the key has exactly 16 characters
(the standard long key id) the latter is its last-8-characters short
form, so both forms answer true. -/
theorem read_gpg_registers_key_forms (data : String) (keys : Finset String)
    (line key : String)
    (hok : read_gpg data = .ok keys)
    (hline : line ∈ py_split '\n' data)
    (hpub : (py_split ':' line).head? = some "pub")
    (hkey : (py_split ':' line).get? 4 = some key) :
    key ∈ keys ∧ py_drop key 8 ∈ keys ∧
      (key.data.length = 16 → short_form_last8 key ∈ keys) := by
  have h := read_gpg_lines_registers (py_split '\n' data) ∅ keys line key
    hok hline hpub hkey
  refine ⟨h.1, h.2, ?_⟩
  intro h16
  have heq : short_form_last8 key = py_drop key 8 := by
    simp [short_form_last8, py_drop, h16]
  rw [heq]
  exact h.2

/-- C9 witness: the amended theorem at a standard 16-character key id,
where both the full id and its last-8 short form are registered. -/
theorem read_gpg_registers_key_forms_witness :
    "0123456789ABCDEF" ∈
        (insert "89ABCDEF" (insert "0123456789ABCDEF" ∅) : Finset String)
    ∧ py_drop "0123456789ABCDEF" 8 ∈
        (insert "89ABCDEF" (insert "0123456789ABCDEF" ∅) : Finset String)
    ∧ short_form_last8 "0123456789ABCDEF" ∈
        (insert "89ABCDEF" (insert "0123456789ABCDEF" ∅) : Finset String) := by
  have h := read_gpg_registers_key_forms "pub:a:b:c:0123456789ABCDEF"
    (insert "89ABCDEF" (insert "0123456789ABCDEF" ∅))
    "pub:a:b:c:0123456789ABCDEF" "0123456789ABCDEF"
    (by rfl) (by decide) (by rfl) (by rfl)
  exact ⟨h.1, h.2.1, h.2.2 (by rfl)⟩
